import Mathlib

/-!
Verification of the morning-pulse NLP pipeline (services/nlp-py).

This file gives a shallow embedding, in Lean 4, of the pure computational
core of the two workers (`workers/deduplicator.py`, `workers/summarizer.py`)
and of the job dispatcher (`lib/job_processor.py`), and proves the
specification's testable properties about them.

Conventions used by the embedding:
* Python strings are Lean `String`s; character-level work happens on the
  underlying `List Char`.
* The ASCII reading of `str.lower`, `\w`, `\s` and `\d` fixed by the
  specification (section 4.1) is used for character classes.
* Python functions that scan a string with a statically unknown stride are
  written with an explicit fuel argument (initialised to the string length,
  which is an upper bound on the number of scanning steps) so that every
  definition is structurally recursive and kernel-evaluable.
* Fallible code is embedded with `Except`.
-/

/-! ## Character classes (ASCII model of Python `\s`, `\w`, `\d`) -/

/-- Python whitespace class `\s` under the ASCII model:
space, tab, newline, carriage return, vertical tab, form feed. -/
def pyIsSpace (c : Char) : Bool :=
  c = ' ' || c = '\t' || c = '\n' || c = '\r' || c = '\x0b' || c = '\x0c'

/-- Python word class `\w` under the ASCII model: `[A-Za-z0-9_]`. -/
def pyIsWord (c : Char) : Bool :=
  c.isAlphanum || c = '_'

/-! ## `normalize_text` (deduplicator.py, lines 20-36) -/

/-- One scanning step of `re.sub(r"https?://\S+", "", text)`: if `l` starts
with a match of the URL pattern, return the remainder after the match.
The pattern needs at least one non-space character after the scheme. -/
def matchUrlRest (l : List Char) : Option (List Char) :=
  match l with
  | 'h' :: 't' :: 't' :: 'p' :: 's' :: ':' :: '/' :: '/' :: c :: r =>
    if pyIsSpace c then none else some ((c :: r).dropWhile (fun d => !pyIsSpace d))
  | 'h' :: 't' :: 't' :: 'p' :: ':' :: '/' :: '/' :: c :: r =>
    if pyIsSpace c then none else some ((c :: r).dropWhile (fun d => !pyIsSpace d))
  | _ => none

/-- Embedding of `re.sub(r"https?://\S+", "", text)`: delete every URL match, scanning left
to right.  `fuel` bounds the number of scanning steps; every step consumes at
least one character, so `l.length` is enough fuel. -/
def removeUrlsAux : Nat → List Char → List Char
  | 0, l => l
  | _ + 1, [] => []
  | fuel + 1, c :: cs =>
    match matchUrlRest (c :: cs) with
    | some rest => removeUrlsAux fuel rest
    | none => c :: removeUrlsAux fuel cs

def removeUrls (l : List Char) : List Char :=
  removeUrlsAux l.length l

/-- Embedding of `re.sub(r"[^\w\s]", " ", text)`: replace every character that is neither a
word character nor whitespace by a single space. -/
def replaceSpecial (l : List Char) : List Char :=
  l.map fun c => if pyIsWord c || pyIsSpace c then c else ' '

/-- Embedding of `re.sub(r"\s+", " ", text)`: collapse every maximal run of whitespace to a
single space.  The flag records whether we are inside a run whose first
character has already been emitted. -/
def collapseAux : Bool → List Char → List Char
  | _, [] => []
  | inRun, c :: cs =>
    if pyIsSpace c then
      if inRun then collapseAux true cs else ' ' :: collapseAux true cs
    else
      c :: collapseAux false cs

def collapseSpaces (l : List Char) : List Char :=
  collapseAux false l

/-- Python `str.strip()`: drop whitespace from both ends. -/
def pyStrip (l : List Char) : List Char :=
  (((l.dropWhile pyIsSpace).reverse).dropWhile pyIsSpace).reverse

/-- Embedding of `normalize_text` (deduplicator.py lines 20-36): lowercase, delete URLs,
replace non-word non-space characters by spaces, collapse whitespace, strip. -/
def normalize_text (text : String) : String :=
  String.mk (pyStrip (collapseSpaces (replaceSpecial (removeUrls (text.data.map Char.toLower)))))

/-- Embedding of `tokenize` (deduplicator.py lines 39-44): whitespace-split of the
normalized text, discarding empty tokens (Python `str.split()`). -/
def pySplitWhiteAux : List Char → List Char → List String
  | acc, [] => if acc.isEmpty then [] else [String.mk acc.reverse]
  | acc, c :: cs =>
    if pyIsSpace c then
      if acc.isEmpty then pySplitWhiteAux [] cs
      else String.mk acc.reverse :: pySplitWhiteAux [] cs
    else
      pySplitWhiteAux (c :: acc) cs

def pySplitWhite (s : String) : List String :=
  pySplitWhiteAux [] s.data

def tokenize (text : String) : List String :=
  pySplitWhite (normalize_text text)

/-! ## Idempotence of `normalize_text` (claim C7) -/

theorem char_ofNat_toNat_shift (n : Nat) (h1 : 65 ≤ n) (h2 : n ≤ 90) :
    (Char.ofNat (n + 32)).toNat = n + 32 := by
  interval_cases n <;> decide

theorem toLower_toLower (c : Char) : c.toLower.toLower = c.toLower := by
  unfold Char.toLower
  by_cases h : 65 ≤ c.toNat ∧ c.toNat ≤ 90
  · rw [if_pos h, char_ofNat_toNat_shift c.toNat h.1 h.2, if_neg (by omega)]
  · rw [if_neg h, if_neg h]

/-- Characters that can appear in the output of `normalize_text`:
lowercase-stable word characters, or a plain space. -/
def CharOK (c : Char) : Prop :=
  (pyIsWord c = true ∧ c.toLower = c) ∨ c = ' '

theorem matchUrlRest_subset {l r : List Char} (h : matchUrlRest l = some r) :
    ∀ c ∈ r, c ∈ l := by
  unfold matchUrlRest at h
  split at h
  · split at h
    · exact absurd h (by simp)
    · intro c hc
      cases h
      have := List.dropWhile_subset (l := _ :: _) (fun d => !pyIsSpace d) hc
      simp only [List.mem_cons] at this ⊢
      tauto
  · split at h
    · exact absurd h (by simp)
    · intro c hc
      cases h
      have := List.dropWhile_subset (l := _ :: _) (fun d => !pyIsSpace d) hc
      simp only [List.mem_cons] at this ⊢
      tauto
  · exact absurd h (by simp)

theorem matchUrlRest_has_colon {l r : List Char} (h : matchUrlRest l = some r) :
    ':' ∈ l := by
  unfold matchUrlRest at h
  split at h <;> simp_all

theorem mem_removeUrlsAux {c : Char} :
    ∀ (fuel : Nat) (l : List Char), c ∈ removeUrlsAux fuel l → c ∈ l
  | 0, l, h => h
  | _ + 1, [], h => by simp [removeUrlsAux] at h
  | fuel + 1, a :: as, h => by
    unfold removeUrlsAux at h
    split at h
    · next rest heq => exact matchUrlRest_subset heq c (mem_removeUrlsAux fuel rest h)
    · rcases List.mem_cons.mp h with h | h
      · simp [h]
      · exact List.mem_cons_of_mem a (mem_removeUrlsAux fuel as h)

theorem removeUrlsAux_id : ∀ (fuel : Nat) (l : List Char),
    (∀ c ∈ l, c ≠ ':') → removeUrlsAux fuel l = l
  | 0, _, _ => rfl
  | _ + 1, [], _ => rfl
  | fuel + 1, a :: as, hcolon => by
    unfold removeUrlsAux
    split
    · next rest heq =>
      exact absurd rfl (hcolon ':' (matchUrlRest_has_colon heq))
    · rw [removeUrlsAux_id fuel as (fun c hc => hcolon c (List.mem_cons_of_mem a hc))]

theorem mem_replaceSpecial {c : Char} {l : List Char} (h : c ∈ replaceSpecial l) :
    c = ' ' ∨ (c ∈ l ∧ (pyIsWord c || pyIsSpace c) = true) := by
  unfold replaceSpecial at h
  rcases List.mem_map.mp h with ⟨a, ha, heq⟩
  by_cases hw : (pyIsWord a || pyIsSpace a) = true
  · rw [if_pos hw] at heq
    right
    exact heq ▸ ⟨ha, hw⟩
  · rw [if_neg hw] at heq
    exact Or.inl heq.symm

theorem replaceSpecial_id {l : List Char}
    (h : ∀ c ∈ l, (pyIsWord c || pyIsSpace c) = true) : replaceSpecial l = l := by
  unfold replaceSpecial
  rw [List.map_congr_left (fun a ha => if_pos (h a ha))]
  simp

theorem mem_collapseAux {c : Char} :
    ∀ (f : Bool) (l : List Char), c ∈ collapseAux f l → c = ' ' ∨ c ∈ l
  | _, [], h => by simp [collapseAux] at h
  | f, a :: as, h => by
    unfold collapseAux at h
    split at h
    · split at h
      · rcases mem_collapseAux true as h with h | h
        · exact Or.inl h
        · exact Or.inr (List.mem_cons_of_mem a h)
      · rcases List.mem_cons.mp h with h | h
        · exact Or.inl h
        · rcases mem_collapseAux true as h with h | h
          · exact Or.inl h
          · exact Or.inr (List.mem_cons_of_mem a h)
    · rcases List.mem_cons.mp h with h | h
      · exact Or.inr (h ▸ List.mem_cons_self a as)
      · rcases mem_collapseAux false as h with h | h
        · exact Or.inl h
        · exact Or.inr (List.mem_cons_of_mem a h)

theorem collapseAux_space_char {c : Char} :
    ∀ (f : Bool) (l : List Char), c ∈ collapseAux f l → pyIsSpace c = true → c = ' '
  | _, [], h, _ => by simp [collapseAux] at h
  | f, a :: as, h, hsp => by
    unfold collapseAux at h
    split at h
    · split at h
      · exact collapseAux_space_char true as h hsp
      · rcases List.mem_cons.mp h with h | h
        · exact h
        · exact collapseAux_space_char true as h hsp
    · next hns =>
      rcases List.mem_cons.mp h with h | h
      · exact absurd (h ▸ hsp) (by simp_all)
      · exact collapseAux_space_char false as h hsp

/-- Adjacent characters are never both whitespace. -/
def NoTwoSpaces (l : List Char) : Prop :=
  l.Chain' fun a b => pyIsSpace a = false ∨ pyIsSpace b = false

theorem collapseAux_head_true :
    ∀ (l : List Char) (d : Char), (collapseAux true l).head? = some d → pyIsSpace d = false
  | [], d, h => by simp [collapseAux] at h
  | a :: as, d, h => by
    unfold collapseAux at h
    split at h
    · rw [if_pos rfl] at h
      exact collapseAux_head_true as d h
    · next hns =>
      rw [List.head?_cons, Option.some_inj] at h
      exact h ▸ Bool.not_eq_true _ ▸ (by simpa using hns)

theorem noTwoSpaces_collapseAux : ∀ (f : Bool) (l : List Char), NoTwoSpaces (collapseAux f l)
  | _, [] => List.chain'_nil
  | f, a :: as => by
    unfold collapseAux
    split
    · next hsp =>
      cases f with
      | true => exact noTwoSpaces_collapseAux true as
      | false =>
        rw [if_neg (by simp)]
        refine List.chain'_cons'.mpr ⟨?_, noTwoSpaces_collapseAux true as⟩
        intro d hd
        exact Or.inr (collapseAux_head_true as d hd)
    · next hns =>
      refine List.chain'_cons'.mpr ⟨?_, noTwoSpaces_collapseAux false as⟩
      intro d _
      exact Or.inl (by simpa using hns)

theorem head_dropWhile_false {p : Char → Bool} :
    ∀ {l : List Char} {d : Char}, (l.dropWhile p).head? = some d → p d = false
  | [], d, h => by simp at h
  | a :: as, d, h => by
    rw [List.dropWhile_cons] at h
    split at h
    · exact head_dropWhile_false h
    · next hp =>
      rw [List.head?_cons, Option.some_inj] at h
      subst h
      simpa using hp

theorem collapseAux_true_eq_false {l : List Char}
    (h : ∀ d, l.head? = some d → pyIsSpace d = false) :
    collapseAux true l = collapseAux false l := by
  cases l with
  | nil => rfl
  | cons a as =>
    unfold collapseAux
    rw [if_neg (by simp [h a rfl]), if_neg (by simp [h a rfl])]

theorem collapseAux_id : ∀ l : List Char,
    (∀ c ∈ l, pyIsSpace c = true → c = ' ') → NoTwoSpaces l → collapseAux false l = l
  | [], _, _ => rfl
  | a :: as, hsp, hchain => by
    unfold collapseAux
    rcases List.chain'_cons'.mp hchain with ⟨hhead, htail⟩
    by_cases ha : pyIsSpace a = true
    · rw [if_pos ha, if_neg (by simp)]
      have ha' : a = ' ' := hsp a (List.mem_cons_self a as) ha
      rw [collapseAux_true_eq_false fun d hd => by
        rcases hhead d hd with h | h
        · exact absurd ha (by simp [h])
        · exact h]
      rw [collapseAux_id as (fun c hc => hsp c (List.mem_cons_of_mem a hc)) htail, ha']
    · rw [if_neg ha,
        collapseAux_id as (fun c hc => hsp c (List.mem_cons_of_mem a hc)) htail]

theorem dropWhile_eq_self_of_head {p : Char → Bool} {l : List Char}
    (h : ∀ d, l.head? = some d → p d = false) : l.dropWhile p = l := by
  cases l with
  | nil => rfl
  | cons a as => rw [List.dropWhile_cons, if_neg (by simp [h a rfl])]

theorem pyStrip_subset {l : List Char} : ∀ c ∈ pyStrip l, c ∈ l := by
  intro c hc
  unfold pyStrip at hc
  rw [List.mem_reverse] at hc
  have h1 := List.dropWhile_subset (l := (l.dropWhile pyIsSpace).reverse) pyIsSpace hc
  rw [List.mem_reverse] at h1
  exact List.dropWhile_subset pyIsSpace h1

theorem pyStrip_decomp (l : List Char) :
    ∃ w : List Char, l.dropWhile pyIsSpace = pyStrip l ++ w := by
  refine ⟨(((l.dropWhile pyIsSpace).reverse).takeWhile pyIsSpace).reverse, ?_⟩
  unfold pyStrip
  rw [← List.reverse_append, List.takeWhile_append_dropWhile, List.reverse_reverse]

theorem pyStrip_head {l : List Char} {d : Char}
    (h : (pyStrip l).head? = some d) : pyIsSpace d = false := by
  obtain ⟨w, hw⟩ := pyStrip_decomp l
  cases hz : pyStrip l with
  | nil => rw [hz] at h; simp at h
  | cons a t =>
    rw [hz] at h
    rw [List.head?_cons, Option.some_inj] at h
    subst h
    rw [hz] at hw
    exact head_dropWhile_false (l := l) (by rw [hw]; rfl)

theorem pyStrip_getLast {l : List Char} {d : Char}
    (h : (pyStrip l).getLast? = some d) : pyIsSpace d = false := by
  unfold pyStrip at h
  rw [List.getLast?_eq_head?_reverse, List.reverse_reverse] at h
  exact head_dropWhile_false h

theorem noTwoSpaces_pyStrip {l : List Char} (h : NoTwoSpaces l) :
    NoTwoSpaces (pyStrip l) := by
  unfold NoTwoSpaces at h ⊢
  have h1 : (l.dropWhile pyIsSpace).Chain'
      fun a b => pyIsSpace a = false ∨ pyIsSpace b = false :=
    List.Chain'.suffix h (List.dropWhile_suffix pyIsSpace)
  have h2 : ((l.dropWhile pyIsSpace).reverse).Chain'
      (flip fun a b => pyIsSpace a = false ∨ pyIsSpace b = false) :=
    (List.chain'_reverse (l := (l.dropWhile pyIsSpace).reverse)).mp
      (by rwa [List.reverse_reverse])
  exact List.chain'_reverse.mpr
    (List.Chain'.suffix h2 (List.dropWhile_suffix pyIsSpace))

theorem pyStrip_id {l : List Char}
    (hhead : ∀ d, l.head? = some d → pyIsSpace d = false)
    (hlast : ∀ d, l.getLast? = some d → pyIsSpace d = false) : pyStrip l = l := by
  unfold pyStrip
  rw [dropWhile_eq_self_of_head hhead,
    dropWhile_eq_self_of_head (fun d hd => hlast d (by rwa [List.head?_reverse] at hd)),
    List.reverse_reverse]

theorem pyIsWord_not_space {c : Char} (hw : pyIsWord c = true) : pyIsSpace c = false := by
  by_contra h
  rw [Bool.not_eq_false] at h
  have hc : c = ' ' ∨ c = '\t' ∨ c = '\n' ∨ c = '\r' ∨ c = '\x0b' ∨ c = '\x0c' := by
    simpa [pyIsSpace, or_assoc] using h
  rcases hc with h | h | h | h | h | h <;> subst h <;> exact absurd hw (by decide)

/-- The full normalization pipeline on character lists. -/
def normalizePipeline (l : List Char) : List Char :=
  pyStrip (collapseSpaces (replaceSpecial (removeUrls (l.map Char.toLower))))

theorem normalize_text_eq_pipeline (x : String) :
    normalize_text x = String.mk (normalizePipeline x.data) := rfl

theorem normalizePipeline_charOK {y : List Char} :
    ∀ c ∈ normalizePipeline y, CharOK c := by
  intro c hc
  unfold normalizePipeline at hc
  have hc4 := pyStrip_subset c hc
  by_cases hsp : pyIsSpace c = true
  · exact Or.inr (collapseAux_space_char false _ hc4 hsp)
  · rcases mem_collapseAux false _ hc4 with h | h3
    · exact Or.inr h
    · rcases mem_replaceSpecial h3 with h | ⟨h2, hws⟩
      · exact Or.inr h
      · have hword : pyIsWord c = true := by
          rcases Bool.or_eq_true _ _ |>.mp hws with h | h
          · exact h
          · exact absurd h (by simp [hsp])
        have h1 := mem_removeUrlsAux _ _ h2
        rcases List.mem_map.mp h1 with ⟨a, _, ha⟩
        exact Or.inl ⟨hword, ha ▸ toLower_toLower a⟩

theorem normalizePipeline_id {z : List Char}
    (hok : ∀ c ∈ z, CharOK c) (hchain : NoTwoSpaces z)
    (hhead : ∀ d, z.head? = some d → pyIsSpace d = false)
    (hlast : ∀ d, z.getLast? = some d → pyIsSpace d = false) :
    normalizePipeline z = z := by
  unfold normalizePipeline
  have hlower : z.map Char.toLower = z := by
    rw [List.map_congr_left (g := fun c => c) ?_]
    · simp
    · intro a ha
      rcases hok a ha with ⟨_, hfix⟩ | hsp
      · exact hfix
      · subst hsp; rfl
  rw [hlower]
  have hurl : removeUrls z = z := by
    refine removeUrlsAux_id _ z fun c hcz hcolon => ?_
    subst hcolon
    rcases hok ':' hcz with ⟨hw, _⟩ | hsp
    · exact absurd hw (by decide)
    · exact absurd hsp (by decide)
  rw [hurl]
  have hrepl : replaceSpecial z = z := by
    refine replaceSpecial_id fun c hcz => ?_
    rcases hok c hcz with ⟨hw, _⟩ | hsp
    · simp [hw]
    · subst hsp; decide
  rw [hrepl]
  have hcol : collapseSpaces z = z := by
    show collapseAux false z = z
    refine collapseAux_id z (fun c hcz hsp => ?_) hchain
    rcases hok c hcz with ⟨hw, _⟩ | h
    · exact absurd hsp (by simp [pyIsWord_not_space hw])
    · exact h
  rw [hcol]
  exact pyStrip_id hhead hlast

/-- Claim C7: `normalize_text` is idempotent — applying it twice gives the same
string as applying it once (deduplicator.py lines 20-36). -/
theorem c7_normalize_text_idempotent (x : String) :
    normalize_text (normalize_text x) = normalize_text x := by
  rw [normalize_text_eq_pipeline x]
  rw [normalize_text_eq_pipeline (String.mk (normalizePipeline x.data))]
  refine congrArg String.mk ?_
  have hz : (String.mk (normalizePipeline x.data)).data = normalizePipeline x.data := rfl
  rw [hz]
  refine normalizePipeline_id normalizePipeline_charOK ?_ ?_ ?_
  · exact noTwoSpaces_pyStrip (noTwoSpaces_collapseAux false _)
  · intro d hd
    exact pyStrip_head hd
  · intro d hd
    exact pyStrip_getLast hd

/-! ## MD5 and `compute_simhash` (deduplicator.py, lines 47-76)

`hashlib.md5` is embedded as the standard MD5 algorithm over byte lists,
with 32-bit words represented as `Nat` reduced modulo `2^32`. -/

/-- UTF-8 encoding of one character (Python `str.encode()`). -/
def utf8EncodeChar (c : Char) : List Nat :=
  let n := c.toNat
  if n < 0x80 then [n]
  else if n < 0x800 then [0xC0 + n / 64, 0x80 + n % 64]
  else if n < 0x10000 then [0xE0 + n / 4096, 0x80 + (n / 64) % 64, 0x80 + n % 64]
  else [0xF0 + n / 262144, 0x80 + (n / 4096) % 64, 0x80 + (n / 64) % 64, 0x80 + n % 64]

def utf8Encode (s : String) : List Nat :=
  s.data.flatMap utf8EncodeChar

/-- MD5 sine-derived constant table `K` (RFC 1321). -/
def md5K : List Nat := [
  0xd76aa478, 0xe8c7b756, 0x242070db, 0xc1bdceee, 0xf57c0faf, 0x4787c62a, 0xa8304613, 0xfd469501,
  0x698098d8, 0x8b44f7af, 0xffff5bb1, 0x895cd7be, 0x6b901122, 0xfd987193, 0xa679438e, 0x49b40821,
  0xf61e2562, 0xc040b340, 0x265e5a51, 0xe9b6c7aa, 0xd62f105d, 0x02441453, 0xd8a1e681, 0xe7d3fbc8,
  0x21e1cde6, 0xc33707d6, 0xf4d50d87, 0x455a14ed, 0xa9e3e905, 0xfcefa3f8, 0x676f02d9, 0x8d2a4c8a,
  0xfffa3942, 0x8771f681, 0x6d9d6122, 0xfde5380c, 0xa4beea44, 0x4bdecfa9, 0xf6bb4b60, 0xbebfbc70,
  0x289b7ec6, 0xeaa127fa, 0xd4ef3085, 0x04881d05, 0xd9d4d039, 0xe6db99e5, 0x1fa27cf8, 0xc4ac5665,
  0xf4292244, 0x432aff97, 0xab9423a7, 0xfc93a039, 0x655b59c3, 0x8f0ccc92, 0xffeff47d, 0x85845dd1,
  0x6fa87e4f, 0xfe2ce6e0, 0xa3014314, 0x4e0811a1, 0xf7537e82, 0xbd3af235, 0x2ad7d2bb, 0xeb86d391
]

/-- MD5 per-round left-rotation amounts (RFC 1321). -/
def md5S : List Nat := [
  7, 12, 17, 22, 7, 12, 17, 22, 7, 12, 17, 22, 7, 12, 17, 22,
  5, 9, 14, 20, 5, 9, 14, 20, 5, 9, 14, 20, 5, 9, 14, 20,
  4, 11, 16, 23, 4, 11, 16, 23, 4, 11, 16, 23, 4, 11, 16, 23,
  6, 10, 15, 21, 6, 10, 15, 21, 6, 10, 15, 21, 6, 10, 15, 21
]

def add32 (a b : Nat) : Nat := (a + b) % 4294967296

def rotl32 (x n : Nat) : Nat :=
  ((x <<< n) % 4294967296) ||| (x >>> (32 - n))

def not32 (x : Nat) : Nat := x ^^^ 0xFFFFFFFF

/-- MD5 message padding: `0x80`, zeros to 56 mod 64, then the 64-bit
little-endian bit length. -/
def md5Pad (msg : List Nat) : List Nat :=
  let len := msg.length
  let padZeros := (119 - len % 64) % 64
  let bitLen := (len * 8) % 18446744073709551616
  msg ++ [0x80] ++ List.replicate padZeros 0 ++
    ((List.range 8).map fun i => (bitLen >>> (8 * i)) % 256)

/-- The sixteen 32-bit little-endian words of a 64-byte block. -/
def blockWords (b : List Nat) : List Nat :=
  (List.range 16).map fun j =>
    b.getD (4 * j) 0 + ((b.getD (4 * j + 1) 0) <<< 8) +
      ((b.getD (4 * j + 2) 0) <<< 16) + ((b.getD (4 * j + 3) 0) <<< 24)

/-- MD5 round function for step `i` (RFC 1321 rounds 1-4). -/
def md5F (i b c d : Nat) : Nat :=
  if i < 16 then (b &&& c) ||| (not32 b &&& d)
  else if i < 32 then (d &&& b) ||| (not32 d &&& c)
  else if i < 48 then b ^^^ c ^^^ d
  else c ^^^ (b ||| not32 d)

/-- MD5 message-word index for step `i`. -/
def md5G (i : Nat) : Nat :=
  if i < 16 then i
  else if i < 32 then (5 * i + 1) % 16
  else if i < 48 then (3 * i + 5) % 16
  else (7 * i) % 16

def md5Compress (st : Nat × Nat × Nat × Nat) (block : List Nat) : Nat × Nat × Nat × Nat :=
  let M := blockWords block
  let r := (List.range 64).foldl
    (fun (s : Nat × Nat × Nat × Nat) i =>
      let f := add32 (add32 (add32 (md5F i s.2.1 s.2.2.1 s.2.2.2) s.1) (md5K.getD i 0))
        (M.getD (md5G i) 0)
      (s.2.2.2, add32 s.2.1 (rotl32 f (md5S.getD i 0)), s.2.1, s.2.2.1))
    st
  (add32 st.1 r.1, add32 st.2.1 r.2.1, add32 st.2.2.1 r.2.2.1, add32 st.2.2.2 r.2.2.2)

/-- Split a byte list into 64-byte blocks.  `fuel` bounds the number of
blocks; the list length is always enough fuel. -/
def toBlocksAux : Nat → List Nat → List (List Nat)
  | 0, _ => []
  | _ + 1, [] => []
  | fuel + 1, l => l.take 64 :: toBlocksAux fuel (l.drop 64)

/-- MD5 digest (16 bytes) of a byte message. -/
def md5Bytes (msg : List Nat) : List Nat :=
  let padded := md5Pad msg
  let st := (toBlocksAux padded.length padded).foldl md5Compress
    (0x67452301, 0xefcdab89, 0x98badcfe, 0x10325476)
  [st.1, st.2.1, st.2.2.1, st.2.2.2].flatMap fun w =>
    (List.range 4).map fun i => (w >>> (8 * i)) % 256

/-- Embedding of `int(hashlib.md5(token.encode()).hexdigest(), 16)`: the digest bytes read
as a big-endian integer (the hex digest prints the bytes in order). -/
def md5IntOfString (s : String) : Nat :=
  (md5Bytes (utf8Encode s)).foldl (fun acc byte => acc * 256 + byte) 0

def hexDigitChar (d : Nat) : Char :=
  if d < 10 then Char.ofNat (48 + d) else Char.ofNat (87 + d)

/-- Fixed-width lowercase hex rendering, most significant digit first.
Agrees with Python `format(n, "0<w>x")` whenever `n < 16^w`. -/
def hexPadAux : Nat → Nat → List Char
  | 0, _ => []
  | w + 1, n => hexPadAux w (n / 16) ++ [hexDigitChar (n % 16)]

/-- Embedding of `compute_simhash` (deduplicator.py lines 47-76).  The fingerprint only
ever sets bits `0..num_bits-1`, so the fixed-width hex rendering agrees with
Python `format(fingerprint, f"0{num_bits // 4}x")`. -/
def compute_simhash (text : String) (num_bits : Nat := 64) : String :=
  let tokens := tokenize text
  if tokens = [] then String.mk (List.replicate (num_bits / 4) '0')
  else
    let vector := tokens.foldl
      (fun (v : List Int) token =>
        let tokenHash := md5IntOfString token
        v.enum.map fun p => if tokenHash &&& (1 <<< p.1) ≠ 0 then p.2 + 1 else p.2 - 1)
      (List.replicate num_bits (0 : Int))
    let fingerprint := (List.range num_bits).foldl
      (fun fp i => if 0 < vector.getD i 0 then fp ||| (1 <<< i) else fp) 0
    String.mk (hexPadAux (num_bits / 4) fingerprint)

/-! ## Format of `compute_simhash` output (claim C8) -/

theorem hexPadAux_length : ∀ (w n : Nat), (hexPadAux w n).length = w
  | 0, _ => rfl
  | w + 1, n => by
    unfold hexPadAux
    rw [List.length_append, hexPadAux_length w (n / 16)]
    rfl

theorem hexDigitChar_range : ∀ d < 16,
    ('0' ≤ hexDigitChar d ∧ hexDigitChar d ≤ '9') ∨
      ('a' ≤ hexDigitChar d ∧ hexDigitChar d ≤ 'f') := by
  decide

theorem hexPadAux_mem : ∀ (w n : Nat), ∀ c ∈ hexPadAux w n,
    ('0' ≤ c ∧ c ≤ '9') ∨ ('a' ≤ c ∧ c ≤ 'f')
  | 0, _, c, h => by simp [hexPadAux] at h
  | w + 1, n, c, h => by
    unfold hexPadAux at h
    rcases List.mem_append.mp h with h | h
    · exact hexPadAux_mem w (n / 16) c h
    · rw [List.mem_singleton] at h
      exact h ▸ hexDigitChar_range (n % 16) (Nat.mod_lt n (by omega))

/-- Claim C8: `compute_simhash` always returns exactly 16 characters, each a
lowercase hex digit, and an input with an empty token stream yields
`"0000000000000000"` (deduplicator.py lines 47-76). -/
theorem c8_compute_simhash_format (text : String) :
    (compute_simhash text).length = 16 ∧
    (∀ c ∈ (compute_simhash text).data, ('0' ≤ c ∧ c ≤ '9') ∨ ('a' ≤ c ∧ c ≤ 'f')) ∧
    (tokenize text = [] → compute_simhash text = "0000000000000000") := by
  unfold compute_simhash
  by_cases h : tokenize text = []
  · rw [if_pos h]
    refine ⟨by simp [String.length], ?_, fun _ => by decide⟩
    intro c hc
    have hc2 : c = '0' := by simpa using hc
    subst hc2
    exact Or.inl (by decide)
  · rw [if_neg h]
    exact ⟨by simp [String.length, hexPadAux_length], fun c hc => hexPadAux_mem _ _ c (by simpa using hc),
      fun habs => absurd habs h⟩

/-- Witness for C8: the empty string has an empty token stream and hashes to
the all-zero fingerprint. -/
theorem c8_compute_simhash_format_witness :
    compute_simhash "" = "0000000000000000" :=
  (c8_compute_simhash_format "").2.2 (by decide)

/-! ## `extract_numbers` (summarizer.py, lines 16-40)

Each Python regex is embedded as a matcher `List Char → Option (List Char)`
returning the remaining input after a match at the current position; the
greedy/backtracking behaviour of the pattern at one position is reproduced
case by case.  `re.finditer` is the left-to-right, non-overlapping scan
`findAllAux`. -/

/-- Embedding of `\d+`: at least one digit, consumed greedily. -/
def digits1 : List Char → Option (List Char)
  | [] => none
  | c :: r => if c.isDigit then some (r.dropWhile Char.isDigit) else none

/-- Embedding of `\s+`: at least one whitespace character, consumed greedily. -/
def spaces1 : List Char → Option (List Char)
  | [] => none
  | c :: r => if pyIsSpace c then some (r.dropWhile pyIsSpace) else none

/-- Embedding of `(?:\.\d+)?` in a context where no later pattern element can fail:
consume a fraction part if present. -/
def optFraction (l : List Char) : List Char :=
  match l with
  | '.' :: d :: rest => if d.isDigit then (d :: rest).dropWhile Char.isDigit else l
  | _ => l

/-- Embedding of `(?:[BMK])?` with `re.IGNORECASE`. -/
def optMagnitude (l : List Char) : List Char :=
  match l with
  | c :: rest =>
    if c = 'B' || c = 'M' || c = 'K' || c = 'b' || c = 'm' || c = 'k' then rest else l
  | [] => l

/-- Embedding of `[\$£€¥]\s?\d+(?:\.\d+)?(?:[BMK])?` (case-insensitive).  The optional
whitespace is committed greedily: if it is taken and no digit follows, the
backtracked alternative would need a digit at the whitespace position and
fails as well. -/
def matchCurrency : List Char → Option (List Char)
  | [] => none
  | c :: r =>
    if c = '$' || c = '£' || c = '€' || c = '¥' then
      let r1 := match r with
        | d :: r2 => if pyIsSpace d then r2 else r
        | [] => r
      match digits1 r1 with
      | some r2 => some (optMagnitude (optFraction r2))
      | none => none
    else none

/-- Embedding of `[+-]?\d+(?:\.\d+)?%`.  If the fraction group is taken, `%` must follow
it; the backtracked no-fraction alternative would see `.` where `%` is
required and cannot succeed. -/
def matchPercent (l : List Char) : Option (List Char) :=
  let l1 := match l with
    | c :: r => if c = '+' || c = '-' then r else l
    | [] => l
  match digits1 l1 with
  | none => none
  | some r2 =>
    match r2 with
    | '.' :: d :: rest =>
      if d.isDigit then
        match (d :: rest).dropWhile Char.isDigit with
        | '%' :: rest2 => some rest2
        | _ => none
      else none
    | '%' :: rest2 => some rest2
    | _ => none

/-- Embedding of `,\d{3}`: one comma group. -/
def commaGroup : List Char → Option (List Char)
  | ',' :: d1 :: d2 :: d3 :: r =>
    if d1.isDigit && d2.isDigit && d3.isDigit then some r else none
  | _ => none

/-- Embedding of `(?:,\d{3})*`: consume as many further comma groups as possible.
Each group takes four characters, so `l.length` is enough fuel. -/
def commaGroupsAux : Nat → List Char → List Char
  | 0, l => l
  | fuel + 1, l =>
    match commaGroup l with
    | some r => commaGroupsAux fuel r
    | none => l

/-- Embedding of `\d{1,3}(?:,\d{3})+(?:\.\d+)?`: the leading digit count is tried
greedily (3, then 2, then 1), exactly as the backtracking engine does. -/
def matchCommaNumber (l : List Char) : Option (List Char) :=
  let tryLead : Nat → Option (List Char) := fun k =>
    if (l.take k).length = k && (l.take k).all Char.isDigit then
      match commaGroup (l.drop k) with
      | some r1 => some (optFraction (commaGroupsAux r1.length r1))
      | none => none
    else none
  tryLead 3 <|> tryLead 2 <|> tryLead 1

/-- Embedding of `\d+\.\d+`. -/
def matchDecimal (l : List Char) : Option (List Char) :=
  match digits1 l with
  | none => none
  | some r =>
    match r with
    | '.' :: d :: rest => if d.isDigit then some ((d :: rest).dropWhile Char.isDigit) else none
    | _ => none

/-- Embedding of `\d{4}-\d{2}-\d{2}`. -/
def matchDateIso : List Char → Option (List Char)
  | a :: b :: c :: d :: '-' :: e :: f :: '-' :: g :: h :: rest =>
    if a.isDigit && b.isDigit && c.isDigit && d.isDigit && e.isDigit && f.isDigit &&
        g.isDigit && h.isDigit then some rest else none
  | _ => none

/-- The twelve month abbreviations, matched case-insensitively. -/
def monthAbbrevs : List String :=
  ["jan", "feb", "mar", "apr", "may", "jun", "jul", "aug", "sep", "oct", "nov", "dec"]

/-- Embedding of `\d{4}` at the end of the date pattern. -/
def year4 : List Char → Option (List Char)
  | a :: b :: c :: d :: rest =>
    if a.isDigit && b.isDigit && c.isDigit && d.isDigit then some rest else none
  | _ => none

/-- Embedding of `(?:Jan|...|Dec)\s+\d{1,2},?\s+\d{4}` (case-insensitive).  The day length
and the optional comma are tried greedily with full backtracking. -/
def matchDateName (l : List Char) : Option (List Char) :=
  match l with
  | m1 :: m2 :: m3 :: r =>
    if monthAbbrevs.contains (String.mk [m1.toLower, m2.toLower, m3.toLower]) then
      match spaces1 r with
      | none => none
      | some r1 =>
        let afterDay : List Char → Option (List Char) := fun r2 =>
          (match r2 with
            | ',' :: r3 =>
              match spaces1 r3 with
              | some r4 => year4 r4
              | none => none
            | _ => none) <|>
          (match spaces1 r2 with
            | some r4 => year4 r4
            | none => none)
        let dayTry : Nat → Option (List Char) := fun k =>
          if (r1.take k).length = k && (r1.take k).all Char.isDigit then
            afterDay (r1.drop k)
          else none
        dayTry 2 <|> dayTry 1
    else none
  | _ => none

/-- Embedding of `\d{4}-\d{2}-\d{2}|(?:Jan|...|Dec)\s+\d{1,2},?\s+\d{4}`: alternation in
pattern order. -/
def matchDate (l : List Char) : Option (List Char) :=
  matchDateIso l <|> matchDateName l

/-- Embedding of `re.finditer`: scan left to right; on a match, record the matched text
and continue after it, otherwise advance one character.  Every step consumes
at least one character, so the input length is enough fuel. -/
def findAllAux (m : List Char → Option (List Char)) : Nat → List Char → List String
  | 0, _ => []
  | _ + 1, [] => []
  | fuel + 1, c :: cs =>
    match m (c :: cs) with
    | some rest =>
      String.mk ((c :: cs).take ((c :: cs).length - rest.length)) ::
        findAllAux m fuel rest
    | none => findAllAux m fuel cs

def findAll (m : List Char → Option (List Char)) (s : String) : List String :=
  findAllAux m s.data.length s.data

/-- Embedding of `extract_numbers` (summarizer.py lines 16-40): all matches of the five
patterns, in pattern order, tagged with their kind. -/
def extract_numbers (text : String) : List (String × String) :=
  ((findAll matchCurrency text).map fun s => (s, "currency")) ++
  ((findAll matchPercent text).map fun s => (s, "percentage")) ++
  ((findAll matchCommaNumber text).map fun s => (s, "number")) ++
  ((findAll matchDecimal text).map fun s => (s, "decimal")) ++
  ((findAll matchDate text).map fun s => (s, "date"))

/-- Embedding of `verify_numerical_consistency` (summarizer.py lines 102-123): every
numeric literal of the summary must occur verbatim among the original
text's numeric literals. -/
def verify_numerical_consistency (summary original_text : String) : Bool :=
  let summary_values := (extract_numbers summary).map Prod.fst
  let original_values := (extract_numbers original_text).map Prod.fst
  summary_values.all fun num => original_values.contains num

/-! ## `extract_key_sentences` and `generate_summary` (summarizer.py, 43-171) -/

def isSentenceSep (c : Char) : Bool :=
  c = '.' || c = '!' || c = '?'

/-- Embedding of `re.split(r"[.!?]+", text)`: split at each maximal run of sentence
separators, keeping empty pieces at the ends (as `re.split` does).  The flag
records whether we are inside a separator run that has already produced a
split. -/
def splitSentencesAux : Bool → List Char → List Char → List String
  | _, acc, [] => [String.mk acc.reverse]
  | skipping, acc, c :: cs =>
    if isSentenceSep c then
      if skipping then splitSentencesAux true acc cs
      else String.mk acc.reverse :: splitSentencesAux true [] cs
    else splitSentencesAux false (c :: acc) cs

def splitSentences (text : String) : List String :=
  splitSentencesAux false [] text.data

/-- The action-verb list of `extract_key_sentences` (summarizer.py 60-71). -/
def action_verbs : List String :=
  ["announced", "reported", "said", "revealed", "confirmed",
   "declined", "rose", "fell", "gained", "lost"]

/-- Python `pat in s` substring test: `pat` occurs contiguously in `s`. -/
def containsSubAux (pat : List Char) : List Char → Bool
  | [] => pat.isEmpty
  | c :: cs => pat.isPrefixOf (c :: cs) || containsSubAux pat cs

def containsSub (pat s : String) : Bool :=
  containsSubAux pat.data s.data

/-- The score of the candidate sentence at (0-indexed) position `i`
(summarizer.py 73-95). -/
def scoreSentence (i : Nat) (sentence : String) : Nat :=
  let wordCount := (pySplitWhite sentence).length
  (if i = 0 then 10 else 0) +
  (if sentence.data.any Char.isDigit then 5 else 0) +
  (if action_verbs.any
      (fun verb => containsSub verb (String.mk (sentence.data.map Char.toLower)))
    then 3 else 0) +
  (if 10 ≤ wordCount && wordCount ≤ 30 then 2 else 0)

/-- Stable insertion into a list sorted by score descending: the new element
goes before the first element whose score is not larger.  Python
`list.sort(reverse=True, key=...)` is a stable descending sort, and every
stable descending sort computes this function's fold. -/
def insertScored (x : Nat × String) : List (Nat × String) → List (Nat × String)
  | [] => [x]
  | y :: ys => if y.1 ≤ x.1 then x :: y :: ys else y :: insertScored x ys

/-- Embedding of `scored_sentences.sort(reverse=True, key=lambda x: x[0])` as a stable
descending insertion sort. -/
def sortScored : List (Nat × String) → List (Nat × String)
  | [] => []
  | x :: xs => insertScored x (sortScored xs)

/-- Embedding of `extract_key_sentences` (summarizer.py lines 43-99). -/
def extract_key_sentences (text : String) (max_sentences : Nat := 2) : List String :=
  let sentences := ((splitSentences text).map fun s => String.mk (pyStrip s.data)).filter
    fun s => 20 < s.length
  if sentences = [] then []
  else
    let scored_sentences := sentences.enum.map fun p => (scoreSentence p.1 p.2, p.2)
    ((sortScored scored_sentences).take max_sentences).map Prod.snd

/-- Python truthiness of an optional string: `None` and `""` are falsy. -/
def pyTruthy : Option String → Bool
  | none => false
  | some s => !s.isEmpty

/-- The `full_text` composed by `generate_summary` (summarizer.py 135-142). -/
def fullTextOf (title : String) (content summary_raw : Option String) : String :=
  let text_parts := [title] ++
    (if pyTruthy content then [content.getD ""]
     else if pyTruthy summary_raw then [summary_raw.getD ""]
     else [])
  " ".intercalate text_parts

/-- Python slicing `s[:n]`: the first `n` characters.  (`String.take` is
extensionally the same but its byte-position arithmetic is too deep for
kernel evaluation.) -/
def pySlice (s : String) (n : Nat) : String :=
  String.mk (s.data.take n)

/-- The `summary_raw`-based fallback `summary_raw[:300] + ("..." if
len(summary_raw) > 300 else "")` (summarizer.py 153 and 168). -/
def rawFallback (r : String) : String :=
  pySlice r 300 ++ (if 300 < r.length then "..." else "")

/-- Embedding of `generate_summary` (summarizer.py lines 126-171). -/
def generate_summary (title : String) (content summary_raw : Option String) :
    String × Bool :=
  let full_text := fullTextOf title content summary_raw
  let key_sentences := extract_key_sentences full_text 2
  if key_sentences = [] then
    if pyTruthy content then
      (pySlice (((content.getD "").splitOn "\n\n").headD "") 300 ++ "...", false)
    else if pyTruthy summary_raw then
      (rawFallback (summary_raw.getD ""), false)
    else
      (title, false)
  else
    let summary := " ".intercalate key_sentences
    let is_verified := verify_numerical_consistency summary full_text
    if !is_verified && pyTruthy summary_raw then
      (rawFallback (summary_raw.getD ""), false)
    else
      (summary, is_verified)

/-! ## Verified summaries only contain input numbers (claim C1) -/

theorem verify_true_subset {s t : String}
    (h : verify_numerical_consistency s t = true) :
    ∀ v ∈ (extract_numbers s).map Prod.fst, v ∈ (extract_numbers t).map Prod.fst := by
  intro v hv
  unfold verify_numerical_consistency at h
  have hc := List.all_eq_true.mp h v hv
  exact List.mem_of_elem_eq_true hc

theorem generate_summary_verified_eq {title : String} {content summary_raw : Option String}
    (h : (generate_summary title content summary_raw).2 = true) :
    (generate_summary title content summary_raw).1 =
      " ".intercalate (extract_key_sentences (fullTextOf title content summary_raw) 2) ∧
    verify_numerical_consistency
      (" ".intercalate (extract_key_sentences (fullTextOf title content summary_raw) 2))
      (fullTextOf title content summary_raw) = true := by
  simp only [generate_summary] at h ⊢
  by_cases hks : extract_key_sentences (fullTextOf title content summary_raw) 2 = []
  · rw [if_pos hks] at h
    exfalso
    split at h
    · simp at h
    · split at h <;> simp at h
  · rw [if_neg hks] at h ⊢
    by_cases hv : verify_numerical_consistency
        (" ".intercalate (extract_key_sentences (fullTextOf title content summary_raw) 2))
        (fullTextOf title content summary_raw) = true
    · refine ⟨?_, hv⟩
      rw [if_neg (by simp [hv])]
    · exfalso
      rw [Bool.not_eq_true] at hv
      split at h
      · simp at h
      · rw [hv] at h
        simp at h

/-- Claim C1: whenever `generate_summary` reports `verified = true`, every
numeric literal extracted from the returned summary also occurs, as an exact
string, among the numeric literals extracted from the composed `full_text`
(summarizer.py lines 102-123 and 126-171). -/
theorem c1_verified_summary_numbers_subset
    (title : String) (content summary_raw : Option String)
    (h : (generate_summary title content summary_raw).2 = true) :
    ∀ v ∈ (extract_numbers (generate_summary title content summary_raw).1).map Prod.fst,
      v ∈ (extract_numbers (fullTextOf title content summary_raw)).map Prod.fst := by
  obtain ⟨heq, hver⟩ := generate_summary_verified_eq h
  rw [heq]
  exact verify_true_subset hver

/-- Witness for C1: a title with no digits is summarized verbatim with
`verified = true`, and its (empty) number set is a subset of the input's. -/
theorem c1_verified_summary_numbers_subset_witness :
    (generate_summary "aaaaaaaaaaaaaaaaaaaaaaaaa" none none).2 = true ∧
    (∀ v ∈ (extract_numbers (generate_summary "aaaaaaaaaaaaaaaaaaaaaaaaa" none none).1).map
        Prod.fst,
      v ∈ (extract_numbers (fullTextOf "aaaaaaaaaaaaaaaaaaaaaaaaa" none none)).map Prod.fst) :=
  ⟨by decide, c1_verified_summary_numbers_subset "aaaaaaaaaaaaaaaaaaaaaaaaa" none none (by decide)⟩

/-! ## Determinism and stable tie-breaking of the scorer sort (claim C6) -/

theorem mem_insertScored {z x : Nat × String} :
    ∀ {l : List (Nat × String)}, z ∈ insertScored x l → z = x ∨ z ∈ l
  | [], h => by simpa [insertScored] using h
  | y :: ys, h => by
    unfold insertScored at h
    split at h
    · rcases List.mem_cons.mp h with h | h
      · exact Or.inl h
      · exact Or.inr h
    · rcases List.mem_cons.mp h with h | h
      · exact Or.inr (h ▸ List.mem_cons_self y ys)
      · rcases mem_insertScored h with h | h
        · exact Or.inl h
        · exact Or.inr (List.mem_cons_of_mem y h)

theorem pairwise_insertScored {x : Nat × String} :
    ∀ {l : List (Nat × String)},
      l.Pairwise (fun a b => b.1 ≤ a.1) → (insertScored x l).Pairwise fun a b => b.1 ≤ a.1
  | [], _ => List.pairwise_singleton _ x
  | y :: ys, h => by
    rcases List.pairwise_cons.mp h with ⟨hy, hys⟩
    unfold insertScored
    split
    · next hle =>
      refine List.pairwise_cons.mpr ⟨?_, h⟩
      intro z hz
      rcases List.mem_cons.mp hz with hz | hz
      · exact hz ▸ hle
      · exact le_trans (hy z hz) hle
    · next hgt =>
      refine List.pairwise_cons.mpr ⟨?_, pairwise_insertScored hys⟩
      intro z hz
      rcases mem_insertScored hz with hz | hz
      · exact hz ▸ le_of_not_le hgt
      · exact hy z hz

theorem pairwise_sortScored :
    ∀ l : List (Nat × String), (sortScored l).Pairwise fun a b => b.1 ≤ a.1
  | [] => List.Pairwise.nil
  | _ :: xs => pairwise_insertScored (pairwise_sortScored xs)

theorem filter_insertScored (k : Nat) (x : Nat × String) :
    ∀ l : List (Nat × String),
      (insertScored x l).filter (fun p => p.1 == k) = (x :: l).filter fun p => p.1 == k
  | [] => rfl
  | y :: ys => by
    unfold insertScored
    split
    · rfl
    · next hgt =>
      have hx : x.1 < y.1 := Nat.lt_of_not_le hgt
      simp only [List.filter_cons]
      rw [filter_insertScored k x ys]
      simp only [List.filter_cons]
      by_cases hyk : (y.1 == k) = true
      · have hxk : (x.1 == k) = false := by
          rw [beq_iff_eq] at hyk
          rw [beq_eq_false_iff_ne]
          omega
        simp [hyk, hxk]
      · by_cases hxk : (x.1 == k) = true <;> simp [hyk, hxk]

theorem filter_sortScored (k : Nat) :
    ∀ l : List (Nat × String),
      (sortScored l).filter (fun p => p.1 == k) = l.filter fun p => p.1 == k
  | [] => rfl
  | x :: xs => by
    unfold sortScored
    rw [filter_insertScored k x (sortScored xs)]
    simp only [List.filter_cons]
    rw [filter_sortScored k xs]

/-- Claim C6: `generate_summary` is deterministic, and the sentence selection
is the first `max_sentences` elements of a stable descending sort of the
scored candidates: the sorted list is ordered by score descending
(`Pairwise`), and for every score value the candidates carrying that score
appear in their original relative order (`filter` stability) — so ties are
broken by earlier original position (summarizer.py lines 43-99, 126-171). -/
theorem c6_generate_summary_deterministic_stable :
    (∀ (title : String) (content summary_raw : Option String),
      generate_summary title content summary_raw = generate_summary title content summary_raw) ∧
    (∀ l : List (Nat × String), (sortScored l).Pairwise fun a b => b.1 ≤ a.1) ∧
    (∀ (l : List (Nat × String)) (k : Nat),
      (sortScored l).filter (fun p => p.1 == k) = l.filter fun p => p.1 == k) ∧
    (∀ (text : String) (n : Nat),
      extract_key_sentences text n =
        (let sentences := ((splitSentences text).map fun s => String.mk (pyStrip s.data)).filter
          fun s => 20 < s.length
        if sentences = [] then []
        else
          ((sortScored (sentences.enum.map fun p => (scoreSentence p.1 p.2, p.2))).take n).map
            Prod.snd)) :=
  ⟨fun _ _ _ => rfl, pairwise_sortScored, fun l k => filter_sortScored k l, fun _ _ => rfl⟩

/-! ## Fallback on failed verification (claim C2) -/

/-- A title whose extracted sentences survive selection but fail numeric
verification: splitting at the `.` of `$1.5` turns the currency literal into
`$1`, which does not occur in the full text's extracted set. -/
def c2Title : String := "aaaaaaaaaaaaaaaaaaaa $1.5 bbbbbbbbbbbbbbbbbbbbbb"

set_option maxRecDepth 100000 in
/-- Counterexample for claim C2: for `c2Title` with `content = None` and
`summary_raw = None`, candidates survive selection and verification of the
emitted summary fails, yet `generate_summary` returns the joined selected
sentences, not the title; and with `summary_raw = Some ""` (non-null) it
still returns the joined sentences, not the `summary_raw`-based fallback
(summarizer.py lines 160-171: the fallback requires a *truthy*
`summary_raw`). -/
theorem c2_title_fallback_counterexample :
    extract_key_sentences (fullTextOf c2Title none none) 2 ≠ [] ∧
    verify_numerical_consistency
      (" ".intercalate (extract_key_sentences (fullTextOf c2Title none none) 2))
      (fullTextOf c2Title none none) = false ∧
    (generate_summary c2Title none none).2 = false ∧
    (generate_summary c2Title none none).1 ≠ c2Title ∧
    (generate_summary c2Title none (some "")).2 = false ∧
    (generate_summary c2Title none (some "")).1 ≠ rawFallback "" :=
  ⟨by decide, by decide, by decide, by decide, by decide, by decide⟩

/-- Claim C2 (amended): if sentence candidates survive selection but numeric
verification of the emitted summary fails, `generate_summary` returns
`verified = false`, and the summary is the `summary_raw`-based fallback
(`summary_raw[:300]` with `"..."` appended when longer than 300) when
`summary_raw` is non-null and non-empty, and is the joined selected
sentences (not the title) when `summary_raw` is null or empty
(summarizer.py lines 160-171). -/
theorem c2_failed_verification_fallback
    (title : String) (content summary_raw : Option String)
    (hks : extract_key_sentences (fullTextOf title content summary_raw) 2 ≠ [])
    (hv : verify_numerical_consistency
      (" ".intercalate (extract_key_sentences (fullTextOf title content summary_raw) 2))
      (fullTextOf title content summary_raw) = false) :
    generate_summary title content summary_raw =
      (if pyTruthy summary_raw then rawFallback (summary_raw.getD "")
       else " ".intercalate (extract_key_sentences (fullTextOf title content summary_raw) 2),
       false) := by
  simp only [generate_summary]
  rw [if_neg hks, hv]
  simp only [Bool.not_false, Bool.true_and]
  by_cases ht : pyTruthy summary_raw = true <;> simp [ht]

set_option maxRecDepth 100000 in
/-- Witness for the amended C2: a truthy `summary_raw` is returned as the
fallback after a failed verification. -/
theorem c2_failed_verification_fallback_witness :
    generate_summary c2Title none (some "rawsum") = ("rawsum", false) := by
  have h := c2_failed_verification_fallback c2Title none (some "rawsum")
    (by decide) (by decide)
  rw [h]
  decide

/-! ## Deduplication worker (deduplicator.py, lines 107-254; claims C5, C10)

The database and the `datasketch` library are external collaborators
(spec sections 1 and 4.5), so the job is modelled as a pure fold over the
fetched in-window article list (already ordered `ts_published DESC` by
`_fetch_articles`), and the MinHash sketch by the token stream it is built
from. -/

structure DedupArticle where
  id : String
  title : String
  summary_raw : Option String

/-- Modelled from the spec: `compute_minhash` builds a `datasketch.MinHash`
sketch (external library) from the token stream of the text (spec section
4.2); identical token streams give identical sketches, so the sketch is
modelled by the token list itself. -/
def compute_minhash (text : String) : List String :=
  tokenize text

/-- Modelled from the spec: the estimated Jaccard similarity between two
MinHash sketches (spec glossary), `|A ∩ B| / |A ∪ B|` over token sets; two
empty sketches are in the identical fresh state and compare as fully
similar, as datasketch's estimator does. -/
def estJaccard (a b : List String) : ℚ :=
  if a.toFinset ∪ b.toFinset = ∅ then 1
  else ((a.toFinset ∩ b.toFinset).card : ℚ) / ((a.toFinset ∪ b.toFinset).card : ℚ)

/-- Modelled from the spec: `MinHashLSH.query` (spec section 4.5) returns
the keys of the indexed sketches whose estimated Jaccard similarity with the
query sketch reaches the 0.85 threshold, in insertion order. -/
def lshQuery (entries : List (String × List String)) (minhash : List String) :
    List String :=
  (entries.filter fun e => decide ((85 : ℚ) / 100 ≤ estJaccard e.2 minhash)).map Prod.fst

structure DedupState where
  lsh : List (String × List String)
  assignments : List (String × String)
  simhashes : List (String × String)
  clusters_created : Nat
  articles_clustered : Nat

def dedupInit : DedupState :=
  ⟨[], [], [], 0, 0⟩

/-- One iteration of the loop of `DeduplicationWorker.process_job`
(deduplicator.py lines 145-178): hash `title + " " + (summary_raw or "")`,
persist the simhash, query the LSH; assign to the first returned cluster if
any, else create a fresh cluster (`uuid.uuid4()` modelled by the fresh-name
supply `gen` applied to the number of clusters created so far) and index its
sketch. -/
def dedupStep (gen : Nat → String) (st : DedupState) (article : DedupArticle) :
    DedupState :=
  let text := article.title ++ " " ++ article.summary_raw.getD ""
  let simhash := compute_simhash text
  let minhash := compute_minhash text
  let st1 : DedupState := {st with simhashes := st.simhashes ++ [(article.id, simhash)]}
  match lshQuery st1.lsh minhash with
  | cluster_id :: _ =>
    {st1 with
      assignments := st1.assignments ++ [(article.id, cluster_id)],
      articles_clustered := st1.articles_clustered + 1}
  | [] =>
    let cluster_id := gen st1.clusters_created
    {st1 with
      assignments := st1.assignments ++ [(article.id, cluster_id)],
      lsh := st1.lsh ++ [(cluster_id, minhash)],
      clusters_created := st1.clusters_created + 1}

def dedupRun (gen : Nat → String) (articles : List DedupArticle) : DedupState :=
  articles.foldl (dedupStep gen) dedupInit

structure DedupResult where
  articles_processed : Nat
  articles_clustered : Nat
  clusters_created : Nat

/-- Embedding of `DeduplicationWorker.process_job` (deduplicator.py lines 118-184):
reject an empty payload, process the fetched articles, and report the
result counters. -/
def dedupProcessJob (gen : Nat → String) (article_ids : List String)
    (articles : List DedupArticle) : Except String DedupResult :=
  if article_ids.isEmpty then Except.error "No article IDs provided in payload"
  else
    let st := dedupRun gen articles
    Except.ok ⟨articles.length, st.articles_clustered, st.clusters_created⟩

theorem estJaccard_self (t : List String) : estJaccard t t = 1 := by
  unfold estJaccard
  rw [Finset.union_self, Finset.inter_self]
  by_cases h : t.toFinset = ∅
  · rw [if_pos h]
  · rw [if_neg h]
    refine div_self ?_
    simp only [ne_eq, Nat.cast_eq_zero, Finset.card_eq_zero]
    exact h

theorem dedup_counters_fold (gen : Nat → String) :
    ∀ (articles : List DedupArticle) (st : DedupState),
      (articles.foldl (dedupStep gen) st).articles_clustered +
          (articles.foldl (dedupStep gen) st).clusters_created =
        st.articles_clustered + st.clusters_created + articles.length
  | [], st => by simp
  | a :: as, st => by
    rw [List.foldl_cons]
    rw [dedup_counters_fold gen as (dedupStep gen st a)]
    show (dedupStep gen st a).articles_clustered + (dedupStep gen st a).clusters_created +
        as.length = st.articles_clustered + st.clusters_created + (a :: as).length
    simp only [dedupStep]
    cases hq : lshQuery st.lsh (compute_minhash (a.title ++ " " ++ a.summary_raw.getD "")) with
    | nil => simp +arith
    | cons c rest => simp +arith

/-- Claim C10: for a non-empty payload, a completed deduplication job reports
`articles_clustered + clusters_created = articles_processed`, with
`articles_processed` the number of fetched in-window articles — every
processed article is either assigned to an existing cluster or creates
exactly one new cluster (deduplicator.py lines 118-184). -/
theorem c10_clustered_plus_created (gen : Nat → String) (article_ids : List String)
    (articles : List DedupArticle) (hids : article_ids ≠ []) :
    dedupProcessJob gen article_ids articles =
      Except.ok
        ⟨articles.length, (dedupRun gen articles).articles_clustered,
          (dedupRun gen articles).clusters_created⟩ ∧
    (dedupRun gen articles).articles_clustered + (dedupRun gen articles).clusters_created =
      articles.length := by
  have hne : article_ids.isEmpty = false := by
    cases article_ids with
    | nil => exact absurd rfl hids
    | cons x xs => rfl
  refine ⟨?_, ?_⟩
  · unfold dedupProcessJob
    rw [hne]
    rfl
  · unfold dedupRun
    rw [dedup_counters_fold gen articles dedupInit]
    simp [dedupInit]

/-- Witness for C10 on a one-article job. -/
theorem c10_clustered_plus_created_witness :
    dedupProcessJob (fun n => toString n) ["a1"] [⟨"a1", "", none⟩] =
      Except.ok
        ⟨[(⟨"a1", "", none⟩ : DedupArticle)].length,
          (dedupRun (fun n => toString n) [⟨"a1", "", none⟩]).articles_clustered,
          (dedupRun (fun n => toString n) [⟨"a1", "", none⟩]).clusters_created⟩ ∧
    (dedupRun (fun n => toString n) [⟨"a1", "", none⟩]).articles_clustered +
        (dedupRun (fun n => toString n) [⟨"a1", "", none⟩]).clusters_created =
      [(⟨"a1", "", none⟩ : DedupArticle)].length :=
  c10_clustered_plus_created (fun n => toString n) ["a1"] [⟨"a1", "", none⟩] (by simp)

/-- Claim C5: a deduplication job over exactly two fetched in-window articles
with identical titles and identical `summary_raw` (the list is ordered
newest first) assigns both to the same cluster: the first (newer) article
creates the cluster, the second (older) one is found by the LSH query at
Jaccard threshold 0.85 and assigned to it, and the job reports
`clusters_created = 1` (deduplicator.py lines 145-184). -/
theorem c5_identical_pair_one_cluster (gen : Nat → String) (article_ids : List String)
    (a1 a2 : DedupArticle) (hids : article_ids ≠ [])
    (ht : a1.title = a2.title) (hr : a1.summary_raw = a2.summary_raw) :
    (dedupRun gen [a1, a2]).assignments = [(a1.id, gen 0), (a2.id, gen 0)] ∧
    (dedupRun gen [a1, a2]).clusters_created = 1 ∧
    (dedupRun gen [a1, a2]).articles_clustered = 1 ∧
    dedupProcessJob gen article_ids [a1, a2] = Except.ok ⟨2, 1, 1⟩ := by
  have hne : article_ids.isEmpty = false := by
    cases article_ids with
    | nil => exact absurd rfl hids
    | cons x xs => rfl
  obtain ⟨id1, t1, r1⟩ := a1
  obtain ⟨id2, t2, r2⟩ := a2
  simp only at ht hr
  subst ht
  subst hr
  have hq2 :
      lshQuery [(gen 0, compute_minhash (t1 ++ " " ++ r1.getD ""))]
        (compute_minhash (t1 ++ " " ++ r1.getD "")) = [gen 0] := by
    unfold lshQuery
    rw [List.filter_cons]
    have hcond :
        decide ((85 : ℚ) / 100 ≤
          estJaccard (compute_minhash (t1 ++ " " ++ r1.getD ""))
            (compute_minhash (t1 ++ " " ++ r1.getD ""))) = true := by
      rw [estJaccard_self, decide_eq_true_eq]
      norm_num
    rw [hcond]
    rfl
  have hrun :
      dedupRun gen [⟨id1, t1, r1⟩, ⟨id2, t1, r1⟩] =
        dedupStep gen (dedupStep gen dedupInit ⟨id1, t1, r1⟩) ⟨id2, t1, r1⟩ := by
    unfold dedupRun
    rw [List.foldl_cons, List.foldl_cons, List.foldl_nil]
  have hstep1 :
      dedupStep gen dedupInit ⟨id1, t1, r1⟩ =
        ⟨[(gen 0, compute_minhash (t1 ++ " " ++ r1.getD ""))], [(id1, gen 0)],
          [(id1, compute_simhash (t1 ++ " " ++ r1.getD ""))], 1, 0⟩ := rfl
  have hstep2 :
      dedupStep gen
        (⟨[(gen 0, compute_minhash (t1 ++ " " ++ r1.getD ""))], [(id1, gen 0)],
          [(id1, compute_simhash (t1 ++ " " ++ r1.getD ""))], 1, 0⟩ : DedupState)
        ⟨id2, t1, r1⟩ =
        ⟨[(gen 0, compute_minhash (t1 ++ " " ++ r1.getD ""))],
          [(id1, gen 0), (id2, gen 0)],
          [(id1, compute_simhash (t1 ++ " " ++ r1.getD "")),
            (id2, compute_simhash (t1 ++ " " ++ r1.getD ""))], 1, 1⟩ := by
    unfold dedupStep
    simp only [hq2]
    rfl
  rw [hrun, hstep1, hstep2]
  refine ⟨rfl, rfl, rfl, ?_⟩
  unfold dedupProcessJob
  rw [hne, hrun, hstep1, hstep2]
  rfl

/-! ## Summarization worker (summarizer.py, lines 182-240; claim C9)

The database is external, so the per-article update
`_update_article_summary` is modelled by a success oracle `updateOk`; an
exception there (or anywhere in the loop body) is caught by the
`except` block of `process_job` and counted in `summaries_failed`.
`generate_summary` itself is total.  The counter triple is
(summaries_generated, summaries_verified, summaries_failed). -/

structure SummArticle where
  id : String
  title : String
  content : Option String
  summary_raw : Option String

/-- One iteration of the loop of `SummarizationWorker.process_job`
(summarizer.py lines 203-233): generate the summary, persist it (which may
raise), then bump the generated/verified counters; on an exception only
`summaries_failed` is bumped and the loop continues. -/
def summStep (updateOk : String → Bool) (counters : Nat × Nat × Nat)
    (article : SummArticle) : Nat × Nat × Nat :=
  if updateOk article.id then
    (counters.1 + 1,
      counters.2.1 +
        (if (generate_summary article.title article.content article.summary_raw).2
          then 1 else 0),
      counters.2.2)
  else
    (counters.1, counters.2.1, counters.2.2 + 1)

structure SummResult where
  articles_processed : Nat
  summaries_generated : Nat
  summaries_verified : Nat
  summaries_failed : Nat

/-- Embedding of `SummarizationWorker.process_job` (summarizer.py lines 182-240). -/
def summProcessJob (updateOk : String → Bool) (article_ids : List String)
    (articles : List SummArticle) : Except String SummResult :=
  if article_ids.isEmpty then Except.error "No article IDs provided in payload"
  else
    let c := articles.foldl (summStep updateOk) (0, 0, 0)
    Except.ok ⟨articles.length, c.1, c.2.1, c.2.2⟩

theorem summ_fold_counts (updateOk : String → Bool) :
    ∀ (articles : List SummArticle) (c : Nat × Nat × Nat),
      (articles.foldl (summStep updateOk) c).1 + (articles.foldl (summStep updateOk) c).2.2 =
          c.1 + c.2.2 + articles.length ∧
      (articles.foldl (summStep updateOk) c).2.2 =
          c.2.2 + (articles.filter fun a => !updateOk a.id).length ∧
      (c.2.1 ≤ c.1 → (articles.foldl (summStep updateOk) c).2.1 ≤
          (articles.foldl (summStep updateOk) c).1)
  | [], c => by simp
  | a :: as, c => by
    rw [List.foldl_cons]
    obtain ⟨ih1, ih2, ih3⟩ := summ_fold_counts updateOk as (summStep updateOk c a)
    by_cases h : updateOk a.id
    · have hstep : summStep updateOk c a =
          (c.1 + 1,
            c.2.1 +
              (if (generate_summary a.title a.content a.summary_raw).2 then 1 else 0),
            c.2.2) := by
        unfold summStep
        rw [if_pos h]
      refine ⟨?_, ?_, ?_⟩
      · rw [ih1, hstep]
        simp +arith
      · rw [ih2, hstep]
        simp +arith [List.filter_cons, h]
      · intro hvg
        refine ih3 ?_
        rw [hstep]
        simp only
        split <;> omega
    · have hstep : summStep updateOk c a = (c.1, c.2.1, c.2.2 + 1) := by
        unfold summStep
        rw [if_neg h]
      refine ⟨?_, ?_, ?_⟩
      · rw [ih1, hstep]
        simp +arith
      · rw [ih2, hstep]
        simp +arith [List.filter_cons, h]
      · intro hvg
        refine ih3 ?_
        rw [hstep]
        simpa using hvg

/-- Claim C9: for a non-empty payload, per-article persistence failures are
caught inside `process_job` — the job still returns a result (it is not
aborted), the failing articles are counted in `summaries_failed`, and the
result satisfies `summaries_generated + summaries_failed = articles_processed`
and `summaries_verified ≤ summaries_generated`
(summarizer.py lines 182-240). -/
theorem c9_per_article_failures_counted (updateOk : String → Bool)
    (article_ids : List String) (articles : List SummArticle)
    (hids : article_ids ≠ []) :
    summProcessJob updateOk article_ids articles =
      Except.ok
        ⟨articles.length, (articles.foldl (summStep updateOk) (0, 0, 0)).1,
          (articles.foldl (summStep updateOk) (0, 0, 0)).2.1,
          (articles.foldl (summStep updateOk) (0, 0, 0)).2.2⟩ ∧
    (articles.foldl (summStep updateOk) (0, 0, 0)).1 +
        (articles.foldl (summStep updateOk) (0, 0, 0)).2.2 = articles.length ∧
    (articles.foldl (summStep updateOk) (0, 0, 0)).2.2 =
        (articles.filter fun a => !updateOk a.id).length ∧
    (articles.foldl (summStep updateOk) (0, 0, 0)).2.1 ≤
        (articles.foldl (summStep updateOk) (0, 0, 0)).1 := by
  have hne : article_ids.isEmpty = false := by
    cases article_ids with
    | nil => exact absurd rfl hids
    | cons x xs => rfl
  obtain ⟨h1, h2, h3⟩ := summ_fold_counts updateOk articles (0, 0, 0)
  refine ⟨?_, by simpa using h1, by simpa using h2, h3 (by simp)⟩
  unfold summProcessJob
  rw [hne]
  rfl

/-- Witness for C9: a two-article job where the second article's DB update
fails. -/
theorem c9_per_article_failures_counted_witness :
    summProcessJob (fun i => i == "ok") ["ok", "bad"]
        [⟨"ok", "t", none, none⟩, ⟨"bad", "t", none, none⟩] =
      Except.ok
        ⟨[(⟨"ok", "t", none, none⟩ : SummArticle), ⟨"bad", "t", none, none⟩].length,
          ([(⟨"ok", "t", none, none⟩ : SummArticle), ⟨"bad", "t", none, none⟩].foldl
            (summStep fun i => i == "ok") (0, 0, 0)).1,
          ([(⟨"ok", "t", none, none⟩ : SummArticle), ⟨"bad", "t", none, none⟩].foldl
            (summStep fun i => i == "ok") (0, 0, 0)).2.1,
          ([(⟨"ok", "t", none, none⟩ : SummArticle), ⟨"bad", "t", none, none⟩].foldl
            (summStep fun i => i == "ok") (0, 0, 0)).2.2⟩ ∧
    ([(⟨"ok", "t", none, none⟩ : SummArticle), ⟨"bad", "t", none, none⟩].foldl
        (summStep fun i => i == "ok") (0, 0, 0)).1 +
      ([(⟨"ok", "t", none, none⟩ : SummArticle), ⟨"bad", "t", none, none⟩].foldl
        (summStep fun i => i == "ok") (0, 0, 0)).2.2 =
      [(⟨"ok", "t", none, none⟩ : SummArticle), ⟨"bad", "t", none, none⟩].length ∧
    ([(⟨"ok", "t", none, none⟩ : SummArticle), ⟨"bad", "t", none, none⟩].foldl
        (summStep fun i => i == "ok") (0, 0, 0)).2.2 =
      ([(⟨"ok", "t", none, none⟩ : SummArticle), ⟨"bad", "t", none, none⟩].filter
        fun a => !(a.id == "ok")).length ∧
    ([(⟨"ok", "t", none, none⟩ : SummArticle), ⟨"bad", "t", none, none⟩].foldl
        (summStep fun i => i == "ok") (0, 0, 0)).2.1 ≤
      ([(⟨"ok", "t", none, none⟩ : SummArticle), ⟨"bad", "t", none, none⟩].foldl
        (summStep fun i => i == "ok") (0, 0, 0)).1 :=
  c9_per_article_failures_counted (fun i => i == "ok") ["ok", "bad"]
    [⟨"ok", "t", none, none⟩, ⟨"bad", "t", none, none⟩] (by simp)

/-! ## Job dispatcher (lib/job_processor.py; claims C3, C4) -/

/-- The fields of `datetime.datetime` relevant to `_fail_job`'s arithmetic. -/
structure PyDateTime where
  year : Nat
  month : Nat
  day : Nat
  hour : Nat
  minute : Nat
  second : Nat
deriving DecidableEq

/-- Embedding of `datetime.replace(minute=m)`: raises `ValueError` unless `0 ≤ m ≤ 59`
(the Python exception message is `"minute must be in 0..59"`). -/
def PyDateTime.replaceMinute (d : PyDateTime) (m : Nat) : Except String PyDateTime :=
  if m ≤ 59 then Except.ok {d with minute := m}
  else Except.error "minute must be in 0..59"

/-- The database update performed by `_fail_job`: either a reschedule to
`pending` with a new `scheduled_for`, or a permanent transition to
`failed`. -/
inductive JobFailUpdate where
  | retryUpdate (scheduled_for : PyDateTime) (error_message : String)
  | permanentFailure (error_message : String)
deriving DecidableEq

/-- Embedding of `JobProcessor._fail_job` (job_processor.py lines 166-227): with
`attempts < max_attempts`, compute `backoff_minutes = 2^(attempts-1)` and set
`scheduled_for` by `scheduled_for.replace(minute=scheduled_for.minute +
backoff_minutes)` — an expression that raises `ValueError` whenever the sum
exceeds 59, in which case no update is issued at all; otherwise mark the job
permanently failed. -/
def failJob (attempts max_attempts : Nat) (error : String) (now : PyDateTime) :
    Except String JobFailUpdate :=
  if attempts < max_attempts then
    let backoff_minutes := 2 ^ (attempts - 1)
    match now.replaceMinute (now.minute + backoff_minutes) with
    | Except.ok scheduled_for => Except.ok (JobFailUpdate.retryUpdate scheduled_for error)
    | Except.error e => Except.error e
  else Except.ok (JobFailUpdate.permanentFailure error)

/-- Claim C3 (code bug, see also spec section 9 "Backoff arithmetic edge
case"): at `attempts = 1 < max_attempts` the first-failure retry is due in
1 minute, but when the current minute is 59 the code's
`replace(minute=minute + backoff)` raises `ValueError` instead of updating
the job, so the job is never rescheduled; when no minute overflow occurs the
code does set `scheduled_for = now + backoff` (job_processor.py lines
179-185). -/
theorem c3_backoff_minute_overflow :
    failJob 1 3 "boom" ⟨2024, 5, 1, 10, 59, 0⟩ =
      Except.error "minute must be in 0..59" ∧
    failJob 1 3 "boom" ⟨2024, 5, 1, 10, 58, 0⟩ =
      Except.ok (JobFailUpdate.retryUpdate ⟨2024, 5, 1, 10, 59, 0⟩ "boom") ∧
    failJob 2 3 "boom" ⟨2024, 5, 1, 10, 58, 0⟩ =
      Except.error "minute must be in 0..59" :=
  ⟨rfl, rfl, rfl⟩

inductive JobStatus where
  | pending
  | processing
  | completed
  | failed
deriving DecidableEq

/-- The queue-relevant fields of a `jobs` row. -/
structure Job where
  status : JobStatus
  attempts : Nat
  max_attempts : Nat
deriving DecidableEq

/-- One dispatcher operation on a job row (job_processor.py):
claim (`_dequeue_job`, lines 82-119: `pending → processing` with
`attempts += 1`), completion (`_complete_job`, lines 145-164), and the two
outcomes of `_fail_job` (lines 166-227: retry when `attempts <
max_attempts`, else permanent failure). -/
inductive JobStep : Job → Job → Prop where
  | claim (j : Job) : j.status = JobStatus.pending →
      JobStep j ⟨JobStatus.processing, j.attempts + 1, j.max_attempts⟩
  | complete (j : Job) : j.status = JobStatus.processing →
      JobStep j ⟨JobStatus.completed, j.attempts, j.max_attempts⟩
  | failRetry (j : Job) : j.status = JobStatus.processing →
      j.attempts < j.max_attempts →
      JobStep j ⟨JobStatus.pending, j.attempts, j.max_attempts⟩
  | failPermanent (j : Job) : j.status = JobStatus.processing →
      ¬ j.attempts < j.max_attempts →
      JobStep j ⟨JobStatus.failed, j.attempts, j.max_attempts⟩

/-- Reachability through dispatcher operations. -/
def JobReach : Job → Job → Prop :=
  Relation.ReflTransGen JobStep

/-- The dispatcher's state invariant on a job row. -/
def JobInv (j : Job) : Prop :=
  (j.status = JobStatus.pending → j.attempts < j.max_attempts) ∧
  (j.status = JobStatus.processing → 1 ≤ j.attempts ∧ j.attempts ≤ j.max_attempts) ∧
  ((j.status = JobStatus.completed ∨ j.status = JobStatus.failed) →
    1 ≤ j.attempts ∧ j.attempts ≤ j.max_attempts)

theorem jobStep_preserves_inv {j j' : Job} (hinv : JobInv j) (hstep : JobStep j j') :
    JobInv j' := by
  obtain ⟨hp, hr, ht⟩ := hinv
  cases hstep with
  | claim h =>
    have hlt := hp h
    refine ⟨fun hcon => by simp at hcon, fun _ => ?_, fun hcon => ?_⟩
    · show 1 ≤ j.attempts + 1 ∧ j.attempts + 1 ≤ j.max_attempts
      omega
    · rcases hcon with hcon | hcon <;> simp at hcon
  | complete h =>
    have hb := hr h
    refine ⟨fun hcon => by simp at hcon, fun hcon => by simp at hcon, fun _ => ?_⟩
    show 1 ≤ j.attempts ∧ j.attempts ≤ j.max_attempts
    exact hb
  | failRetry h hlt =>
    refine ⟨fun _ => ?_, fun hcon => by simp at hcon, fun hcon => ?_⟩
    · show j.attempts < j.max_attempts
      exact hlt
    · rcases hcon with hcon | hcon <;> simp at hcon
  | failPermanent h hge =>
    have hb := hr h
    refine ⟨fun hcon => by simp at hcon, fun hcon => by simp at hcon, fun _ => ?_⟩
    show 1 ≤ j.attempts ∧ j.attempts ≤ j.max_attempts
    exact hb

theorem jobReach_inv {j0 j : Job} (hinv : JobInv j0) (hreach : JobReach j0 j) :
    JobInv j := by
  induction hreach with
  | refl => exact hinv
  | tail _ hstep ih => exact jobStep_preserves_inv ih hstep

/-- Claim C4: from a pending job with `attempts = 0` and `max_attempts >= 1`,
every terminal state (`completed` or `failed`) reachable through the
dispatcher's claim/complete/fail operations satisfies
`1 <= attempts <= max_attempts`; moreover a job whose attempts counter has
reached `max_attempts` can never transition back to `pending` — after a
failure it becomes `failed` (job_processor.py lines 82-119 and 166-227). -/
theorem c4_terminal_attempts_bounds (j0 jt : Job)
    (hstatus : j0.status = JobStatus.pending) (hatt : j0.attempts = 0)
    (hmax : 1 ≤ j0.max_attempts) (hreach : JobReach j0 jt)
    (hterm : jt.status = JobStatus.completed ∨ jt.status = JobStatus.failed) :
    (1 ≤ jt.attempts ∧ jt.attempts ≤ jt.max_attempts) ∧
    (∀ j j' : Job, j.status = JobStatus.processing → j.max_attempts ≤ j.attempts →
      JobStep j j' → j'.status ≠ JobStatus.pending) := by
  refine ⟨?_, ?_⟩
  · have hinv0 : JobInv j0 := by
      refine ⟨fun _ => by omega, fun hproc => ?_, fun hdone => ?_⟩
      · rw [hstatus] at hproc
        cases hproc
      · rcases hdone with hdone | hdone <;> rw [hstatus] at hdone <;> cases hdone
    exact (jobReach_inv hinv0 hreach).2.2 hterm
  · intro j j' hproc hge hstep
    cases hstep with
    | claim h => simp
    | complete h => simp
    | failRetry h hlt => omega
    | failPermanent h hge2 => simp

/-- Witness for C4: a job with `max_attempts = 1` is claimed once and fails
permanently; the terminal attempts counter is exactly 1. -/
theorem c4_terminal_attempts_bounds_witness :
    (1 ≤ (Job.mk JobStatus.failed 1 1).attempts ∧
      (Job.mk JobStatus.failed 1 1).attempts ≤ (Job.mk JobStatus.failed 1 1).max_attempts) ∧
    (∀ j j' : Job, j.status = JobStatus.processing → j.max_attempts ≤ j.attempts →
      JobStep j j' → j'.status ≠ JobStatus.pending) :=
  c4_terminal_attempts_bounds ⟨JobStatus.pending, 0, 1⟩ ⟨JobStatus.failed, 1, 1⟩
    rfl rfl (by decide)
    (Relation.ReflTransGen.tail
      (Relation.ReflTransGen.tail Relation.ReflTransGen.refl
        (JobStep.claim ⟨JobStatus.pending, 0, 1⟩ rfl))
      (JobStep.failPermanent ⟨JobStatus.processing, 1, 1⟩ rfl (by decide)))
    (Or.inr rfl)

/-- Witness for C5: two concrete articles with equal title and equal
`summary_raw` end up in the one cluster created by the first of them. -/
theorem c5_identical_pair_one_cluster_witness :
    (dedupRun (fun n => toString n)
        [⟨"id1", "Fed raises rates", none⟩, ⟨"id2", "Fed raises rates", none⟩]).assignments =
      [("id1", toString 0), ("id2", toString 0)] ∧
    (dedupRun (fun n => toString n)
        [⟨"id1", "Fed raises rates", none⟩, ⟨"id2", "Fed raises rates", none⟩]).clusters_created = 1 ∧
    (dedupRun (fun n => toString n)
        [⟨"id1", "Fed raises rates", none⟩, ⟨"id2", "Fed raises rates", none⟩]).articles_clustered = 1 ∧
    dedupProcessJob (fun n => toString n) ["id1", "id2"]
        [⟨"id1", "Fed raises rates", none⟩, ⟨"id2", "Fed raises rates", none⟩] =
      Except.ok ⟨2, 1, 1⟩ :=
  c5_identical_pair_one_cluster (fun n => toString n) ["id1", "id2"]
    ⟨"id1", "Fed raises rates", none⟩ ⟨"id2", "Fed raises rates", none⟩
    (by simp) rfl rfl
